import Mathlib

/-!
# Verification of `src/libutil/logging.hh` (namespace `nix`)

The header declares the leveled-logging facade of the tool: the `Verbosity`
order, the polymorphic sink `Logger` with its default method bodies, the
payload type `Logger::Field`, the scoped handle `Activity`, and the `printMsg`
family of guarded logging statements.

Embedding.

* A `uint64_t` value is a `Nat`; `u64` is the conversion to 64 bits that C++
  applies when an argument is bound to a `uint64_t` parameter and when a
  `uint64_t` counter is incremented.
* A `Logger &` / `Logger *` is a `LoggerRef`.  The only effect of the code in
  this header is to call methods of a logger, so the meaning of a statement is
  the ordered list of `(receiver, call)` pairs it issues (`Calls`).
* What a sink does with a call is a method of its virtual table `Logger σ`
  acting on the sink state `σ`; a method either returns the next state or
  throws (`Except`).  The default bodies of the header are the default field
  values of the structure.
* `FormatOrString` and `std::string` are `String`.  `fmt` (from `types.hh`) is a
  parameter of the `printMsg` family.
* `printMsg` is a macro: its `level` argument is program text, pasted as it is
  into `level <= nix::verbosity`.  The level is therefore a `LevelExpr`, and the
  expanded condition is computed from its form, not only from its value.
* A program that uses Activities is a sequence of operations (`Op`) on a
  `World`: the id counter, the calls made so far, and the table of Activity
  objects.  Destructors run when an object's lifetime ends, on every exit path,
  so an exit path is the position of the `scopeExit` operations in the sequence.
-/

namespace nix

/-! ## Enumerations (lines 7-35) -/

/-- The enumeration `Verbosity`. -/
inductive Verbosity where
  | lvlError
  | lvlInfo
  | lvlTalkative
  | lvlChatty
  | lvlDebug
  | lvlVomit
deriving DecidableEq, Repr

/-- Enumerator values of `Verbosity`: `lvlError = 0`, each next one is one more. -/
def Verbosity.toNat : Verbosity → Nat
  | .lvlError => 0
  | .lvlInfo => 1
  | .lvlTalkative => 2
  | .lvlChatty => 3
  | .lvlDebug => 4
  | .lvlVomit => 5

/-- Comparison `a <= b` of two enumeration values compares the enumerator values. -/
instance : LE Verbosity := ⟨fun a b => a.toNat ≤ b.toNat⟩

/-- Comparison `a < b` of two enumeration values compares the enumerator values. -/
instance : LT Verbosity := ⟨fun a b => a.toNat < b.toNat⟩

instance (a b : Verbosity) : Decidable (a ≤ b) := Nat.decLe a.toNat b.toNat

instance (a b : Verbosity) : Decidable (a < b) := Nat.decLt a.toNat b.toNat

/-- The enumeration `ActivityType`. -/
inductive ActivityType where
  | actUnknown
  | actCopyPath
  | actDownload
  | actRealise
  | actCopyPaths
  | actBuilds
  | actBuild
  | actOptimiseStore
  | actVerifyPaths
deriving DecidableEq, Repr

/-- Enumerator values of `ActivityType`. -/
def ActivityType.toNat : ActivityType → Nat
  | .actUnknown => 0
  | .actCopyPath => 100
  | .actDownload => 101
  | .actRealise => 102
  | .actCopyPaths => 103
  | .actBuilds => 104
  | .actBuild => 105
  | .actOptimiseStore => 106
  | .actVerifyPaths => 107

/-- The enumeration `ResultType`. -/
inductive ResultType where
  | resFileLinked
  | resBuildLogLine
  | resUntrustedPath
  | resCorruptedPath
deriving DecidableEq, Repr

/-- Enumerator values of `ResultType`. -/
def ResultType.toNat : ResultType → Nat
  | .resFileLinked => 100
  | .resBuildLogLine => 101
  | .resUntrustedPath => 102
  | .resCorruptedPath => 103

/-- Conversion of an integer to `uint64_t`. -/
def u64 (n : Nat) : Nat := n % 2 ^ 64

/-- The type `ActivityId` is `uint64_t` (line 35). -/
abbrev ActivityId := Nat

/-! ## `Logger::Field` (lines 62-71) -/

/-- The anonymous enumeration of `Field::type`. -/
inductive FieldType where
  | tInt
  | tString
deriving DecidableEq, Repr

/-- The struct `Logger::Field`: the tag, and both members `i` and `s`, as the
header has no variant. -/
structure Field where
  type : FieldType
  i : Nat
  s : String
deriving DecidableEq, Repr

/-- Constructors `Field(const std::string & s)` and `Field(const char * s)`:
`type(tString), s(s)`; the member `i` keeps its initialiser `0`. -/
def Field.ofString (s : String) : Field :=
  { type := .tString, i := 0, s := s }

/-- Constructor `Field(const uint64_t & i)`: `type(tInt), i(i)`; the member `s`
is default-constructed, the empty string. -/
def Field.ofUInt64 (i : Nat) : Field :=
  { type := .tInt, i := u64 i, s := "" }

/-- One argument of the pack `args...` of `Activity::result`: an integer or a
text. -/
inductive Arg where
  | int (n : Nat)
  | text (s : String)
deriving DecidableEq, Repr

/-- The expression `Logger::Field(args)` for one argument: overload resolution
picks the constructor by the argument's type. -/
def Field.ofArg : Arg → Field
  | .int n => Field.ofUInt64 n
  | .text s => Field.ofString s

/-! ## Calls on a logger -/

/-- A reference (or pointer) to a `Logger` object. -/
abbrev LoggerRef := Nat

/-- One call of a virtual method of `Logger`, with its arguments. -/
inductive Call where
  | log (lvl : Verbosity) (fs : String)
  | startActivity (act : ActivityId) (type : ActivityType) (s : String)
  | stopActivity (act : ActivityId)
  | progress (act : ActivityId) (done expected running failed : Nat)
  | setExpected (act : ActivityId) (type : ActivityType) (expected : Nat)
  | result (act : ActivityId) (type : ResultType) (fields : List Field)
deriving DecidableEq, Repr

/-- The calls a statement issues, in order, each with the logger it is made on. -/
abbrev Calls := List (LoggerRef × Call)

/-! ## `class Logger` (lines 37-74) -/

/-- The virtual table of a sink with state `σ`.  `log` is pure virtual; the
other methods have the empty body `{ }` of the header as default.
(`warn` is virtual too, its body is outside this header and no statement of
the header calls it.) -/
structure Logger (σ : Type) where
  log : Verbosity → String → σ → Except String σ
  startActivity : ActivityId → ActivityType → String → σ → Except String σ :=
    fun _ _ _ st => .ok st
  stopActivity : ActivityId → σ → Except String σ :=
    fun _ st => .ok st
  progress : ActivityId → Nat → Nat → Nat → Nat → σ → Except String σ :=
    fun _ _ _ _ _ st => .ok st
  setExpected : ActivityId → ActivityType → Nat → σ → Except String σ :=
    fun _ _ _ st => .ok st
  result : ActivityId → ResultType → List Field → σ → Except String σ :=
    fun _ _ _ st => .ok st

/-- The overload `void log(const FormatOrString & fs) { log(lvlInfo, fs); }`. -/
def Logger.log1 {σ : Type} (L : Logger σ) (fs : String) (st : σ) : Except String σ :=
  L.log .lvlInfo fs st

/-- Virtual dispatch: the sink `L` receives the call `c`. -/
def Logger.handle {σ : Type} (L : Logger σ) (c : Call) (st : σ) : Except String σ :=
  match c with
  | .log lvl fs => L.log lvl fs st
  | .startActivity act type s => L.startActivity act type s st
  | .stopActivity act => L.stopActivity act st
  | .progress act done expected running failed =>
      L.progress act done expected running failed st
  | .setExpected act type expected => L.setExpected act type expected st
  | .result act type fields => L.result act type fields st

/-- The sink `L` receives the calls `cs` one after the other; a call that throws
ends the sequence. -/
def Logger.deliver {σ : Type} (L : Logger σ) : List Call → σ → Except String σ
  | [], st => .ok st
  | c :: cs, st =>
      match L.handle c st with
      | .ok st1 => L.deliver cs st1
      | .error e => .error e

/-- A minimal sink: it implements `log` and inherits every other method. -/
def Logger.minimal {σ : Type} (log : Verbosity → String → σ → Except String σ) :
    Logger σ :=
  { log := log }

/-- A sink that overrides every method to append the call to its state. -/
def recorder : Logger (List Call) :=
  { log := fun lvl fs st => .ok (st ++ [.log lvl fs])
    startActivity := fun act type s st => .ok (st ++ [.startActivity act type s])
    stopActivity := fun act st => .ok (st ++ [.stopActivity act])
    progress := fun act done expected running failed st =>
      .ok (st ++ [.progress act done expected running failed])
    setExpected := fun act type expected st => .ok (st ++ [.setExpected act type expected])
    result := fun act type fields st => .ok (st ++ [.result act type fields]) }

/-- The calls of `cs` that are made on the logger `l`. -/
def received (l : LoggerRef) (cs : Calls) : List Call :=
  (cs.filter (fun p => p.1 == l)).map (fun p => p.2)

/-! ## `struct Activity` (lines 76-102) -/

/-- The data members of `Activity`: `Logger & logger` and `const ActivityId id`. -/
structure Activity where
  logger : LoggerRef
  id : ActivityId
deriving DecidableEq, Repr

/-- Modelled from the spec: the constructor `Activity::Activity(Logger &,
ActivityType, const std::string & = "")` is declared at line 82 and defined
outside the header, together with the process-wide counter.  It "allocates a
fresh ActivityId from a process-wide monotonically increasing counter, then
immediately invokes startActivity(id, type, description) on the given Logger".
The counter has the type of the ids it issues, `uint64_t`.  Returns the new
object, the next counter value and the calls made. -/
def Activity.construct (nextId : Nat) (logger : LoggerRef) (type : ActivityType)
    (s : String := "") : Activity × Nat × Calls :=
  ({ logger := logger, id := nextId }, u64 (nextId + 1),
    [(logger, .startActivity nextId type s)])

/-- The implicitly-defined copy constructor (the struct declares none, and does
not delete it): memberwise copy of `logger` and `id`, no call on the logger. -/
def Activity.copy (a : Activity) : Activity :=
  { logger := a.logger, id := a.id }

/-- The destructor `~Activity() { logger.stopActivity(id); }`. -/
def Activity.destroy (a : Activity) : Calls :=
  [(a.logger, .stopActivity a.id)]

/-- The member `progress(done = 0, expected = 0, running = 0, failed = 0)`:
`logger.progress(id, done, expected, running, failed)`. -/
def Activity.progress (a : Activity) (done : Nat := 0) (expected : Nat := 0)
    (running : Nat := 0) (failed : Nat := 0) : Calls :=
  [(a.logger, .progress a.id (u64 done) (u64 expected) (u64 running) (u64 failed))]

/-- The member `setExpected(type2, expected)`:
`logger.setExpected(id, type2, expected)`. -/
def Activity.setExpected (a : Activity) (type2 : ActivityType) (expected : Nat) : Calls :=
  [(a.logger, .setExpected a.id type2 (u64 expected))]

/-- The member template `result(type, args...)`: `fields` starts empty, the
braced list `nop{(fields.emplace_back(Logger::Field(args)), 1)...}` runs one
`emplace_back` per argument from left to right, then
`logger.result(id, type, fields)`. -/
def Activity.result (a : Activity) (type : ResultType) (args : List Arg) : Calls :=
  let fields := args.foldl (fun (fields : List Field) x => fields ++ [Field.ofArg x]) []
  [(a.logger, .result a.id type fields)]

/-! ## The `printMsg` family (lines 104-124) -/

/-- The `level` argument of `printMsg` as the macro sees it, a piece of program
text.  The macro pastes it without parentheses in front of `<= nix::verbosity`,
so its top-level operator matters.  `atom v` is an expression that binds tighter
than `<=` (an enumerator, a variable, a call, a parenthesised expression) with
value `v`.  `cond c a b` is the conditional expression `c ? a : b`, `c` having
the truth value given.  (An expression with another operator below `<=` does
not have type `Verbosity` and is not accepted as first argument of `log`.) -/
inductive LevelExpr where
  | atom (v : Verbosity)
  | cond (c : Bool) (a b : LevelExpr)
deriving DecidableEq, Repr

/-- The value of the level expression, as in `logger->log(level, ...)`, where it
stands as a whole function argument. -/
def LevelExpr.value : LevelExpr → Verbosity
  | .atom v => v
  | .cond c a b => if c then a.value else b.value

/-- The value of the expanded condition `level <= nix::verbosity`.  For an
`atom` it is the comparison.  For `c ? a : b` the expansion
`c ? a : b <= nix::verbosity` is parsed as `c ? a : (b <= nix::verbosity)`:
when `c` holds it is `a` itself, an enumeration value converted to `int`, and
otherwise it is the expansion for `b`. -/
def LevelExpr.guard (verbosity : Verbosity) : LevelExpr → Nat
  | .atom v => if v ≤ verbosity then 1 else 0
  | .cond c a b => if c then a.value.toNat else b.guard verbosity

/-- The macro `printMsg(level, args...)` with an argument expression that reads
and changes a program state `τ`:
`if (level <= nix::verbosity) { logger->log(level, fmt(args)); }`.
The condition of the `if` holds when its value is not zero.
`logger` and `verbosity` are the two process-wide variables of lines 104 and
108.  Returns the calls made and the program state afterwards. -/
def printMsgM {α τ : Type} (fmt : α → String) (logger : LoggerRef) (verbosity : Verbosity)
    (level : LevelExpr) (args : τ → α × τ) (u : τ) : Calls × τ :=
  if level.guard verbosity ≠ 0 then
    let r := args u
    ([(logger, .log level.value (fmt r.1))], r.2)
  else
    ([], u)

/-- The macro `printMsg(level, args...)` with arguments free of side effects. -/
def printMsg {α : Type} (fmt : α → String) (logger : LoggerRef) (verbosity : Verbosity)
    (level : LevelExpr) (args : α) : Calls :=
  (printMsgM fmt logger verbosity level (fun (u : Unit) => (args, u)) ()).1

/-- The macro `printError(args...)`: `printMsg(lvlError, args)`. -/
def printError {α : Type} (fmt : α → String) (logger : LoggerRef) (verbosity : Verbosity)
    (args : α) : Calls :=
  printMsg fmt logger verbosity (.atom .lvlError) args

/-- The macro `printInfo(args...)`: `printMsg(lvlInfo, args)`. -/
def printInfo {α : Type} (fmt : α → String) (logger : LoggerRef) (verbosity : Verbosity)
    (args : α) : Calls :=
  printMsg fmt logger verbosity (.atom .lvlInfo) args

/-- The macro `printTalkative(args...)`: `printMsg(lvlTalkative, args)`. -/
def printTalkative {α : Type} (fmt : α → String) (logger : LoggerRef)
    (verbosity : Verbosity) (args : α) : Calls :=
  printMsg fmt logger verbosity (.atom .lvlTalkative) args

/-- The macro `debug(args...)`: `printMsg(lvlDebug, args)`. -/
def debug {α : Type} (fmt : α → String) (logger : LoggerRef) (verbosity : Verbosity)
    (args : α) : Calls :=
  printMsg fmt logger verbosity (.atom .lvlDebug) args

/-- The macro `vomit(args...)`: `printMsg(lvlVomit, args)`. -/
def vomit {α : Type} (fmt : α → String) (logger : LoggerRef) (verbosity : Verbosity)
    (args : α) : Calls :=
  printMsg fmt logger verbosity (.atom .lvlVomit) args

/-- Instrumentation for counting evaluations: the argument expression `args`
together with a counter that each evaluation increments. -/
def counted {α τ : Type} (args : τ → α × τ) (p : τ × Nat) : α × (τ × Nat) :=
  ((args p.1).1, ((args p.1).2, p.2 + 1))

/-- Reading a field the way a consumer does: switch on the tag, then read the
member that the tag names. -/
def Field.payload (f : Field) : Arg :=
  match f.type with
  | .tInt => .int f.i
  | .tString => .text f.s

/-- Whether a call is a call of `log`. -/
def Call.isLog : Call → Bool
  | .log _ _ => true
  | _ => false

/-! ## Programs that use Activities -/

/-- The ids given to the Activities of a sequence of constructions, in order;
`nextId` is the value of the process-wide counter before the first one, and
each entry of the list holds the arguments of one constructor call. -/
def issuedIds (nextId : Nat) : List (LoggerRef × ActivityType × String) → List ActivityId
  | [] => []
  | (l, t, s) :: rest =>
      let r := Activity.construct nextId l t s
      r.1.id :: issuedIds r.2.1 rest

/-- The state of a process as far as Activities go: the counter, the calls made
on loggers so far, and the Activity objects created so far in creation order
(`none` once the object is destroyed).  An object is named by its position. -/
structure World where
  nextId : Nat
  trace : Calls
  objects : List (Option Activity)
deriving DecidableEq, Repr

/-- A public operation on Activities: construction, copy construction from the
object `h`, a member call on the object `h`, or the end of the lifetime of the
object `h` (its scope is left, normally or by an exception). -/
inductive Op where
  | construct (logger : LoggerRef) (type : ActivityType) (s : String)
  | copy (h : Nat)
  | progress (h : Nat) (done expected running failed : Nat)
  | setExpected (h : Nat) (type2 : ActivityType) (expected : Nat)
  | result (h : Nat) (type : ResultType) (args : List Arg)
  | scopeExit (h : Nat)
deriving DecidableEq, Repr

/-- The object `h`, if it exists and is alive. -/
def World.live (w : World) (h : Nat) : Option Activity :=
  match w.objects[h]? with
  | some (some a) => some a
  | _ => none

/-- One operation.  An operation on an object that does not exist or is already
destroyed is not a step of any program: `none`. -/
def step (w : World) : Op → Option World
  | .construct l t s =>
      let r := Activity.construct w.nextId l t s
      some { nextId := r.2.1, trace := w.trace ++ r.2.2,
             objects := w.objects ++ [some r.1] }
  | .copy h =>
      match w.live h with
      | some a => some { w with objects := w.objects ++ [some a.copy] }
      | none => none
  | .progress h done expected running failed =>
      match w.live h with
      | some a => some { w with trace := w.trace ++ a.progress done expected running failed }
      | none => none
  | .setExpected h type2 expected =>
      match w.live h with
      | some a => some { w with trace := w.trace ++ a.setExpected type2 expected }
      | none => none
  | .result h type args =>
      match w.live h with
      | some a => some { w with trace := w.trace ++ a.result type args }
      | none => none
  | .scopeExit h =>
      match w.live h with
      | some a => some { w with trace := w.trace ++ a.destroy,
                                objects := w.objects.set h none }
      | none => none

/-- A sequence of operations, from left to right. -/
def run (w : World) : List Op → Option World
  | [] => some w
  | op :: ops =>
      match step w op with
      | some w1 => run w1 ops
      | none => none

/-- The start of a process: the `uint64_t` counter initialised with `c`, no call
made, no object. -/
def World.initial (c : Nat) : World :=
  { nextId := u64 c, trace := [], objects := [] }

/-- Every object created so far has been destroyed. -/
def World.allDestroyed (w : World) : Prop :=
  ∀ o ∈ w.objects, o = none

instance (w : World) : Decidable w.allDestroyed :=
  inferInstanceAs (Decidable (∀ o ∈ w.objects, o = none))

/-- The id of a `startActivity` or `stopActivity` call. -/
def Call.lifeId : Call → Option ActivityId
  | .startActivity act _ _ => some act
  | .stopActivity act => some act
  | _ => none

/-- The `startActivity` and `stopActivity` calls with id `id` that the logger
`l` received, in order. -/
def lifecycle (l : LoggerRef) (id : ActivityId) (cs : Calls) : List Call :=
  (received l cs).filter (fun c => c.lifeId == some id)

/-- Whether an operation is a construction. -/
def Op.isConstruct : Op → Bool
  | .construct _ _ _ => true
  | _ => false

/-- The number of constructions in a sequence of operations. -/
def constructions (ops : List Op) : Nat :=
  (ops.filter Op.isConstruct).length

/-- Invariant of a run that started with counter value `c` and has made `k`
constructions: the counter is `c + k` modulo `2 ^ 64`, and every id carried by
an object or by a `startActivity` or `stopActivity` call made so far is one of
the `k` ids issued so far. -/
def IssuedSoFar (c k : Nat) (w : World) : Prop :=
  w.nextId = (c + k) % 2 ^ 64 ∧
  (∀ a : Activity, some a ∈ w.objects → ∃ j, j < k ∧ a.id = (c + j) % 2 ^ 64) ∧
  (∀ p ∈ w.trace, ∀ x, p.2.lifeId = some x → ∃ j, j < k ∧ x = (c + j) % 2 ^ 64)

/-- Invariant of a run after the construction of the object `h` with logger
`l`, id `i`, type `t` and description `s`, `r` constructions later: no other
object carries the id `i`; and either `h` is alive and `l` has received the
`startActivity` of `i` and no `stopActivity` of `i`, or `h` is destroyed and
`l` has received the `startActivity` of `i` and then one `stopActivity` of
`i`. -/
def OwnsId (h : Nat) (l : LoggerRef) (i : ActivityId) (t : ActivityType) (s : String)
    (r : Nat) (w : World) : Prop :=
  h < w.objects.length ∧
  w.nextId = (i + 1 + r) % 2 ^ 64 ∧
  (∀ (j : Nat) (a : Activity), j ≠ h → w.objects[j]? = some (some a) → a.id ≠ i) ∧
  ((w.objects[h]? = some (some { logger := l, id := i }) ∧
      lifecycle l i w.trace = [Call.startActivity i t s]) ∨
   (w.objects[h]? = some none ∧
      lifecycle l i w.trace = [Call.startActivity i t s, Call.stopActivity i]))

/-- Invariant of a run after the construction of the object `h` with logger
`l`, id `i`, type `t` and description `s`, `r` constructions later, whether the
object is copied or not: `l` has received the `startActivity` of `i` once and
first, and after it `n` times `stopActivity` of `i`; the object `h` is alive,
or it is destroyed and `n` is at least 1. -/
def StartsFirst (h : Nat) (l : LoggerRef) (i : ActivityId) (t : ActivityType) (s : String)
    (r : Nat) (w : World) : Prop :=
  h < w.objects.length ∧
  w.nextId = (i + 1 + r) % 2 ^ 64 ∧
  ∃ n : Nat,
    lifecycle l i w.trace
      = Call.startActivity i t s :: List.replicate n (Call.stopActivity i) ∧
    (w.objects[h]? = some (some { logger := l, id := i }) ∨
     (w.objects[h]? = some none ∧ 1 ≤ n))

/-- The program that `n` times constructs an Activity on the logger 0 and leaves
its scope at once; the Activity of round `j` is the object `j`. -/
def shortLived : Nat → List Op
  | 0 => []
  | n + 1 => shortLived n ++ [Op.construct 0 .actUnknown "", Op.scopeExit n]

/-! ## Theorems -/

/-- Delivering one call is handling it. -/
theorem deliver_single {σ : Type} (L : Logger σ) (c : Call) (st : σ) :
    L.deliver [c] st = L.handle c st := by
  simp only [Logger.deliver]
  cases L.handle c st <;> rfl

/-- The calls made on `l` among calls all made on `l`. -/
theorem received_single (l : LoggerRef) (c : Call) : received l [(l, c)] = [c] := by
  simp [received]

/-- The recording sink appends the calls it receives, in order. -/
theorem recorder_deliver (cs tr : List Call) : recorder.deliver cs tr = .ok (tr ++ cs) := by
  induction cs generalizing tr with
  | nil => simp [Logger.deliver]
  | cons c rest ih =>
    have hc : recorder.handle c tr = .ok (tr ++ [c]) := by
      cases c <;> rfl
    simp only [Logger.deliver, hc, ih, List.append_assoc, List.singleton_append]

/-- The calls of `printMsg`, by the value of the expanded condition. -/
theorem printMsg_eq {α : Type} (fmt : α → String) (logger : LoggerRef) (t : Verbosity)
    (e : LevelExpr) (m : α) :
    printMsg fmt logger t e m
      = if e.guard t ≠ 0 then [(logger, Call.log e.value (fmt m))] else [] := by
  unfold printMsg printMsgM
  split <;> rfl

/-- For a level that binds tighter than `<=`, the expanded condition is the
comparison of the level with the threshold. -/
theorem guard_atom (t v : Verbosity) : (LevelExpr.atom v).guard t ≠ 0 ↔ v ≤ t := by
  unfold LevelExpr.guard
  split <;> simp [*]

/-- The expanded condition stays true when the threshold is raised. -/
theorem guard_mono (t t2 : Verbosity) (h : t ≤ t2) (e : LevelExpr)
    (he : e.guard t ≠ 0) : e.guard t2 ≠ 0 := by
  induction e with
  | atom v =>
    rw [guard_atom] at he ⊢
    exact Nat.le_trans he h
  | cond c a b _ ihb =>
    cases c
    · exact ihb he
    · exact he

/-- The filter for a level that binds tighter than `<=` (every use of `printMsg`
with an enumerator or a variable as level, and the five macros defined on top
of it): exactly the one call `log(v, fmt(m))` on the active logger when
`v <= t`, no call when `v > t`; whatever sink `L` the active logger is, it goes
through `log(v, fmt(m))` once in the first case and stays as it is in the
second. -/
theorem printMsg_atom_filter {α σ : Type} (fmt : α → String) (logger : LoggerRef)
    (t v : Verbosity) (m : α) (L : Logger σ) (st : σ) :
    (v ≤ t → printMsg fmt logger t (.atom v) m = [(logger, Call.log v (fmt m))] ∧
      L.deliver (received logger (printMsg fmt logger t (.atom v) m)) st
        = L.log v (fmt m) st) ∧
    (t < v → printMsg fmt logger t (.atom v) m = [] ∧
      L.deliver (received logger (printMsg fmt logger t (.atom v) m)) st = .ok st) := by
  constructor
  · intro h
    have hcalls : printMsg fmt logger t (.atom v) m = [(logger, Call.log v (fmt m))] := by
      rw [printMsg_eq, if_pos ((guard_atom t v).mpr h)]
      rfl
    refine ⟨hcalls, ?_⟩
    rw [hcalls, received_single, deliver_single]
    rfl
  · intro h
    have h1 : ¬ v ≤ t := fun hle => Nat.lt_irrefl _ (Nat.lt_of_lt_of_le h hle)
    have hcalls : printMsg fmt logger t (.atom v) m = [] := by
      rw [printMsg_eq, if_neg (fun hg => h1 ((guard_atom t v).mp hg))]
    refine ⟨hcalls, ?_⟩
    rw [hcalls]
    rfl

/-- Laziness for a level that binds tighter than `<=`: when `v > t` no call is
made and the program state is as it was, an evaluation counter attached to the
message expression stays put; when `v <= t` the state is the state after one
evaluation, the message logged is the value of that evaluation, and the counter
goes up by one. -/
theorem printMsgM_atom_lazy {α τ : Type} (fmt : α → String) (logger : LoggerRef)
    (t v : Verbosity) (args : τ → α × τ) (u : τ) (n : Nat) :
    (t < v → printMsgM fmt logger t (.atom v) args u = ([], u) ∧
      (printMsgM fmt logger t (.atom v) (counted args) (u, n)).2 = (u, n)) ∧
    (v ≤ t → printMsgM fmt logger t (.atom v) args u
        = ([(logger, Call.log v (fmt (args u).1))], (args u).2) ∧
      (printMsgM fmt logger t (.atom v) (counted args) (u, n)).2 = ((args u).2, n + 1)) := by
  constructor
  · intro h
    have h1 : ¬ v ≤ t := fun hle => Nat.lt_irrefl _ (Nat.lt_of_lt_of_le h hle)
    have hg : ¬ (LevelExpr.atom v).guard t ≠ 0 := fun hg => h1 ((guard_atom t v).mp hg)
    unfold printMsgM
    rw [if_neg hg, if_neg hg]
    exact ⟨rfl, rfl⟩
  · intro h
    have hg : (LevelExpr.atom v).guard t ≠ 0 := (guard_atom t v).mpr h
    unfold printMsgM
    rw [if_pos hg, if_pos hg]
    exact ⟨rfl, rfl⟩

/-- C1 (the code at the failing inputs): with the level written as a conditional
expression the filter is not `v <= t`.  `printMsg(c ? lvlInfo : lvlDebug, "x")`
with `c` true has level `lvlInfo`; at threshold `lvlError`, below the level, it
makes the call `log(lvlInfo, "x")`.  `printMsg(c ? lvlError : lvlDebug, "x")`
with `c` true has level `lvlError`; at threshold `lvlInfo`, above the level, it
makes no call. -/
theorem printMsg_conditional_level :
    ((LevelExpr.cond true (.atom .lvlInfo) (.atom .lvlDebug)).value = Verbosity.lvlInfo ∧
      Verbosity.lvlError < Verbosity.lvlInfo ∧
      printMsg id 0 .lvlError (.cond true (.atom .lvlInfo) (.atom .lvlDebug)) "x"
        = [(0, Call.log .lvlInfo "x")]) ∧
    ((LevelExpr.cond true (.atom .lvlError) (.atom .lvlDebug)).value = Verbosity.lvlError ∧
      Verbosity.lvlError ≤ Verbosity.lvlInfo ∧
      printMsg id 0 .lvlInfo (.cond true (.atom .lvlError) (.atom .lvlDebug)) "x" = []) := by
  decide

/-- C2 (the code at the failing inputs): the message expression increments a
variable that holds 7 and yields its old value as text.  With the level
`c ? lvlInfo : lvlDebug`, `c` true, at threshold `lvlError` (level above the
threshold) the expression is evaluated: the variable becomes 8.  With the level
`c ? lvlError : lvlDebug`, `c` true, at threshold `lvlInfo` (level at or below
the threshold) it is not evaluated: the variable stays 7 and no call is made. -/
theorem printMsgM_conditional_level :
    (Verbosity.lvlError < (LevelExpr.cond true (.atom .lvlInfo) (.atom .lvlDebug)).value ∧
      printMsgM id 0 .lvlError (.cond true (.atom .lvlInfo) (.atom .lvlDebug))
          (fun (k : Nat) => (toString k, k + 1)) 7
        = ([(0, Call.log .lvlInfo (toString 7))], 8)) ∧
    ((LevelExpr.cond true (.atom .lvlError) (.atom .lvlDebug)).value ≤ Verbosity.lvlInfo ∧
      printMsgM id 0 .lvlInfo (.cond true (.atom .lvlError) (.atom .lvlDebug))
          (fun (k : Nat) => (toString k, k + 1)) 7
        = ([], 7)) := by
  refine ⟨⟨by decide, rfl⟩, ⟨by decide, rfl⟩⟩

/-- C4: for every unsigned 64-bit integer `n`, `Field(n)` has tag `tInt` and
member `i` equal to `n`; for every text `s`, `Field(s)` has tag `tString` and
member `s` equal to `s`.  Reading the member the tag names gives back the
value the field was built from. -/
theorem Field_constructor_tag_payload (n : Nat) (hn : n < 2 ^ 64) (s : String) :
    (Field.ofUInt64 n).type = FieldType.tInt ∧ (Field.ofUInt64 n).i = n ∧
    (Field.ofString s).type = FieldType.tString ∧ (Field.ofString s).s = s ∧
    (Field.ofUInt64 n).payload = Arg.int n ∧ (Field.ofString s).payload = Arg.text s := by
  have h : u64 n = n := Nat.mod_eq_of_lt hn
  simp [Field.ofUInt64, Field.ofString, Field.payload, h]

/-- Witness for C4 at the largest 64-bit integer and the empty text. -/
theorem Field_constructor_tag_payload_witness :
    (Field.ofUInt64 (2 ^ 64 - 1)).type = FieldType.tInt ∧
    (Field.ofUInt64 (2 ^ 64 - 1)).i = 2 ^ 64 - 1 ∧
    (Field.ofString "").type = FieldType.tString ∧ (Field.ofString "").s = "" ∧
    (Field.ofUInt64 (2 ^ 64 - 1)).payload = Arg.int (2 ^ 64 - 1) ∧
    (Field.ofString "").payload = Arg.text "" :=
  Field_constructor_tag_payload (2 ^ 64 - 1) (by norm_num) ""

/-- Appending one converted element per step builds the converted list. -/
theorem foldl_emplace_back {β γ : Type} (f : β → γ) (xs : List β) (init : List γ) :
    xs.foldl (fun (acc : List γ) x => acc ++ [f x]) init = init ++ xs.map f := by
  induction xs generalizing init with
  | nil => simp
  | cons x rest ih => simp [List.foldl_cons, ih]

/-- C5: `Activity::result(r, x1, ..., xn)` on an Activity with id `a` makes
exactly one call `result(a, r, fields)` on the bound logger; `fields` has one
entry per argument, and entry `k` is the field built from argument `k`: for an
integer `n` the field `{tInt, n, ""}` (`n` taken as `uint64_t`), for a text `s`
the field `{tString, 0, s}`.  So the order is kept, nothing is dropped or
duplicated, and reading entry `k` by its tag gives back argument `k` when that
is a text or a 64-bit integer. -/
theorem Activity_result_fields (a : Activity) (r : ResultType) (args : List Arg) :
    ∃ fields : List Field,
      a.result r args = [(a.logger, Call.result a.id r fields)] ∧
      fields.length = args.length ∧
      ∀ (k : Nat) (h1 : k < fields.length) (h2 : k < args.length),
        (∀ n : Nat, args[k] = Arg.int n →
          fields[k] = { type := FieldType.tInt, i := n % 2 ^ 64, s := "" } ∧
          fields[k] = Field.ofUInt64 n) ∧
        (∀ s : String, args[k] = Arg.text s →
          fields[k] = { type := FieldType.tString, i := 0, s := s } ∧
          fields[k] = Field.ofString s) ∧
        ((∀ n : Nat, args[k] = Arg.int n → n < 2 ^ 64) → fields[k].payload = args[k]) := by
  refine ⟨args.map Field.ofArg, ?_, by simp, ?_⟩
  · simp [Activity.result, foldl_emplace_back]
  · intro k h1 h2
    have hk : (args.map Field.ofArg)[k] = Field.ofArg args[k] := by simp
    rw [hk]
    refine ⟨?_, ?_, ?_⟩
    · intro n hn
      rw [hn]
      exact ⟨rfl, rfl⟩
    · intro s hs
      rw [hs]
      exact ⟨rfl, rfl⟩
    · intro hfit
      cases harg : args[k] with
      | int n =>
        have hn : n < 2 ^ 64 := hfit n harg
        simp only [Field.ofArg, Field.ofUInt64, Field.payload, u64, Nat.mod_eq_of_lt hn]
      | text s =>
        simp [Field.ofArg, Field.ofString, Field.payload]

/-- Scenario D for C5: `result(resFileLinked, 42, "path/to/file")` delivers the
fields `[ {tInt, 42}, {tString, "path/to/file"} ]` with the type and the id. -/
theorem Activity_result_fields_witness :
    ∃ fields : List Field,
      Activity.result { logger := 0, id := 5 } .resFileLinked
          [Arg.int 42, Arg.text "path/to/file"]
        = [(0, Call.result 5 .resFileLinked fields)] ∧
      fields = [{ type := .tInt, i := 42, s := "" },
                { type := .tString, i := 0, s := "path/to/file" }] := by
  obtain ⟨fields, hcall, hlen, hk⟩ :=
    Activity_result_fields { logger := 0, id := 5 } .resFileLinked
      [Arg.int 42, Arg.text "path/to/file"]
  refine ⟨fields, hcall, ?_⟩
  rcases fields with _ | ⟨f0, _ | ⟨f1, _ | ⟨f2, rest⟩⟩⟩
  · simp at hlen
  · simp at hlen
  · have h0 := ((hk 0 (by simp) (by simp)).1 42 rfl).1
    have h1 := ((hk 1 (by simp) (by simp)).2.1 "path/to/file" rfl).1
    simp only [List.getElem_cons_zero, List.getElem_cons_succ] at h0 h1
    rw [h0, h1]
    rfl
  · simp at hlen

/-- C6: for 64-bit counters, `Activity::progress(done, expected, running,
failed)` makes exactly one call `progress(id, done, expected, running, failed)`
on the bound logger, the counters unchanged and in place;
`Activity::setExpected(t, e)` makes exactly one call `setExpected(id, t, e)`;
counters left out of `progress` are passed as 0.  (Both members are `const` and
return nothing: the Activity, and so its id, is the same afterwards.) -/
theorem Activity_progress_setExpected_forward (a : Activity)
    (done expected running failed e : Nat) (t : ActivityType)
    (hd : done < 2 ^ 64) (he : expected < 2 ^ 64) (hr : running < 2 ^ 64)
    (hf : failed < 2 ^ 64) (hx : e < 2 ^ 64) :
    a.progress done expected running failed
      = [(a.logger, Call.progress a.id done expected running failed)] ∧
    a.setExpected t e = [(a.logger, Call.setExpected a.id t e)] ∧
    a.progress done expected running
      = [(a.logger, Call.progress a.id done expected running 0)] ∧
    a.progress done expected = [(a.logger, Call.progress a.id done expected 0 0)] ∧
    a.progress done = [(a.logger, Call.progress a.id done 0 0 0)] ∧
    a.progress = [(a.logger, Call.progress a.id 0 0 0 0)] := by
  have h1 : u64 done = done := Nat.mod_eq_of_lt hd
  have h2 : u64 expected = expected := Nat.mod_eq_of_lt he
  have h3 : u64 running = running := Nat.mod_eq_of_lt hr
  have h4 : u64 failed = failed := Nat.mod_eq_of_lt hf
  have h5 : u64 e = e := Nat.mod_eq_of_lt hx
  have h0 : u64 0 = 0 := rfl
  simp [Activity.progress, Activity.setExpected, h0, h1, h2, h3, h4, h5]

/-- Scenario B for C6: `progress(3, 10, 1, 0)` on an Activity with id 9 delivers
`progress(9, 3, 10, 1, 0)`. -/
theorem Activity_progress_setExpected_forward_witness :
    Activity.progress { logger := 0, id := 9 } 3 10 1 0
      = [(0, Call.progress 9 3 10 1 0)] :=
  (Activity_progress_setExpected_forward { logger := 0, id := 9 } 3 10 1 0 4
    .actDownload (by norm_num) (by norm_num) (by norm_num) (by norm_num)
    (by norm_num)).1

/-- A minimal sink ignores every call that is not a call of `log`. -/
theorem minimal_handle_not_log {σ : Type}
    (log : Verbosity → String → σ → Except String σ) (c : Call) (st : σ)
    (h : c.isLog = false) : (Logger.minimal log).handle c st = .ok st := by
  cases c <;> first | rfl | exact absurd h (by simp [Call.isLog])

/-- C7: on a sink that implements only `log`, each of `startActivity`,
`stopActivity`, `progress`, `setExpected` and `result` returns normally with the
sink state unchanged, for every argument and every state; so does any sequence
of such calls, a `stopActivity` of an id never started or stopped before among
them. -/
theorem minimal_sink_noop {σ : Type} (log : Verbosity → String → σ → Except String σ)
    (st : σ) (act : ActivityId) (type : ActivityType) (s : String)
    (done expected running failed : Nat) (rt : ResultType) (fields : List Field)
    (cs : List Call) :
    (Logger.minimal log).startActivity act type s st = .ok st ∧
    (Logger.minimal log).stopActivity act st = .ok st ∧
    (Logger.minimal log).progress act done expected running failed st = .ok st ∧
    (Logger.minimal log).setExpected act type expected st = .ok st ∧
    (Logger.minimal log).result act rt fields st = .ok st ∧
    (Logger.minimal log).deliver [Call.stopActivity act, Call.stopActivity act] st
      = .ok st ∧
    (Logger.minimal log).deliver (cs.filter (fun c => !c.isLog)) st = .ok st := by
  refine ⟨rfl, rfl, rfl, rfl, rfl, rfl, ?_⟩
  induction cs with
  | nil => rfl
  | cons c rest ih =>
    cases hc : c.isLog
    · simp [List.filter_cons, hc, Logger.deliver, minimal_handle_not_log log c st hc, ih]
    · simpa [List.filter_cons, hc] using ih

/-- C9: for every sink, `log(m)` is `log(lvlInfo, m)`: the same result from every
state, it is the one call `log(lvlInfo, m)` dispatched to the sink, and a sink
that records its calls gets exactly that one entry. -/
theorem Logger_log1_is_log_info {σ : Type} (L : Logger σ) (m : String) (st : σ)
    (tr : List Call) :
    L.log1 m st = L.log Verbosity.lvlInfo m st ∧
    L.log1 m st = L.deliver [Call.log Verbosity.lvlInfo m] st ∧
    recorder.log1 m tr = .ok (tr ++ [Call.log Verbosity.lvlInfo m]) := by
  refine ⟨rfl, ?_, rfl⟩
  rw [deliver_single]
  rfl

/-- The level `lvlError` is at or below every threshold. -/
theorem lvlError_le (t : Verbosity) : Verbosity.lvlError ≤ t :=
  Nat.zero_le t.toNat

/-- C10: the filter's order is `lvlError < lvlInfo < lvlTalkative < lvlChatty <
lvlDebug < lvlVomit` with `lvlError` least, so `printError(m)` makes exactly the
one call `log(lvlError, fmt(m))` at every threshold; and a message that
`printMsg` delivers at threshold `t` is delivered, the same, at every
threshold `t2 >= t`, whatever the form of the level expression. -/
theorem printError_always_and_monotone {α : Type} (fmt : α → String)
    (logger : LoggerRef) (t t2 : Verbosity) (e : LevelExpr) (m : α) :
    (Verbosity.lvlError < Verbosity.lvlInfo ∧ Verbosity.lvlInfo < Verbosity.lvlTalkative ∧
      Verbosity.lvlTalkative < Verbosity.lvlChatty ∧
      Verbosity.lvlChatty < Verbosity.lvlDebug ∧
      Verbosity.lvlDebug < Verbosity.lvlVomit) ∧
    Verbosity.lvlError ≤ t ∧
    printError fmt logger t m = [(logger, Call.log Verbosity.lvlError (fmt m))] ∧
    (t ≤ t2 → printMsg fmt logger t e m ≠ [] →
      printMsg fmt logger t2 e m = [(logger, Call.log e.value (fmt m))] ∧
      printMsg fmt logger t2 e m = printMsg fmt logger t e m) := by
  refine ⟨by decide, lvlError_le t, ?_, ?_⟩
  · unfold printError
    rw [printMsg_eq, if_pos ((guard_atom t .lvlError).mpr (lvlError_le t))]
    rfl
  · intro h12 hne
    have hg : e.guard t ≠ 0 := by
      intro hc
      apply hne
      rw [printMsg_eq, if_neg (fun hx => hx hc)]
    have hg2 : e.guard t2 ≠ 0 := guard_mono t t2 h12 e hg
    rw [printMsg_eq, printMsg_eq, if_pos hg, if_pos hg2]
    exact ⟨rfl, rfl⟩

/-- Witness for C10: `printError("boom")` is delivered at the lowest threshold
`lvlError`, and `printMsg(lvlChatty, "m")`, delivered at threshold `lvlChatty`,
is delivered at threshold `lvlVomit`. -/
theorem printError_always_and_monotone_witness :
    printError id 0 .lvlError "boom" = [(0, Call.log .lvlError "boom")] ∧
    printMsg id 0 .lvlVomit (.atom .lvlChatty) "m" = [(0, Call.log .lvlChatty "m")] :=
  ⟨(printError_always_and_monotone id 0 .lvlError .lvlError (.atom .lvlError) "boom").2.2.1,
   ((printError_always_and_monotone id 0 .lvlChatty .lvlVomit (.atom .lvlChatty) "m").2.2.2
      (by decide) (by decide)).1⟩

/-- The ids issued from counter value `c` are `c`, `c + 1`, ... taken modulo
`2 ^ 64`. -/
theorem issuedIds_eq (c : Nat) (hc : c < 2 ^ 64)
    (reqs : List (LoggerRef × ActivityType × String)) :
    issuedIds c reqs = (List.range reqs.length).map (fun j => (c + j) % 2 ^ 64) := by
  induction reqs generalizing c with
  | nil => rfl
  | cons r rest ih =>
    obtain ⟨l, t, s⟩ := r
    have hlt : u64 (c + 1) < 2 ^ 64 := Nat.mod_lt _ (by norm_num)
    simp only [issuedIds, Activity.construct, List.length_cons, List.range_succ_eq_map,
      List.map_cons, List.map_map, ih (u64 (c + 1)) hlt]
    refine congrArg₂ List.cons ?_ ?_
    · show @Eq Nat c ((c + 0) % 2 ^ 64)
      omega
    · apply List.map_congr_left
      intro j _
      show @Eq Nat ((u64 (c + 1) + j) % 2 ^ 64) ((c + (j + 1)) % 2 ^ 64)
      unfold u64
      omega

/-- Whatever the allocator, a list of more than `2 ^ 64` ids of type `uint64_t`
has a repetition. -/
theorem uint64_ids_repeat (ids : List ActivityId) (hrange : ∀ x ∈ ids, x < 2 ^ 64)
    (hlen : 2 ^ 64 < ids.length) : ¬ ids.Nodup := by
  intro hnd
  have hsub : ids.toFinset ⊆ Finset.range (2 ^ 64) := by
    intro x hx
    exact Finset.mem_range.mpr (hrange x (List.mem_toFinset.mp hx))
  have hcard := Finset.card_le_card hsub
  rw [List.toFinset_card_of_nodup hnd, Finset.card_range] at hcard
  omega

/-- C8 (amended): in any sequence of at most `2 ^ 64` constructions, the ids
issued are pairwise distinct: a later id is never equal to an earlier one. -/
theorem issuedIds_nodup (c : Nat) (hc : c < 2 ^ 64)
    (reqs : List (LoggerRef × ActivityType × String)) (hn : reqs.length ≤ 2 ^ 64) :
    (issuedIds c reqs).Nodup := by
  rw [issuedIds_eq c hc reqs]
  refine List.Nodup.map_on ?_ (List.nodup_range _)
  intro x hx y hy hxy
  rw [List.mem_range] at hx hy
  have hxy2 : (c + x) % 2 ^ 64 = (c + y) % 2 ^ 64 := hxy
  omega

/-- Witness for C8 (amended): three constructions at the top of the counter
range get the ids `2 ^ 64 - 2`, `2 ^ 64 - 1` and `0`. -/
theorem issuedIds_nodup_witness :
    (issuedIds (2 ^ 64 - 2)
      [(0, .actDownload, "a"), (0, .actBuild, "b"), (1, .actUnknown, "")]).Nodup :=
  issuedIds_nodup (2 ^ 64 - 2) (by norm_num) _ (by simp)

/-- C8 (counterexample): `2 ^ 64 + 1` constructions, counter starting at 0: the
ids are not pairwise distinct (the last Activity gets the id 0 of the first). -/
theorem issuedIds_wrap_reuse :
    ¬ (issuedIds 0 (List.replicate (2 ^ 64 + 1) (0, ActivityType.actUnknown, ""))).Nodup := by
  rw [issuedIds_eq 0 (by norm_num), List.length_replicate]
  intro h
  have hinj := List.inj_on_of_nodup_map h
  have h0 : (0 : Nat) ∈ List.range (2 ^ 64 + 1) := List.mem_range.mpr (by norm_num)
  have h1 : (2 ^ 64 : Nat) ∈ List.range (2 ^ 64 + 1) := List.mem_range.mpr (by norm_num)
  have := hinj h0 h1 (by norm_num)
  norm_num at this

/-- Running a concatenation is running the parts in turn. -/
theorem run_append (w : World) (xs ys : List Op) :
    run w (xs ++ ys) = (run w xs).bind (fun w1 => run w1 ys) := by
  induction xs generalizing w with
  | nil => rfl
  | cons op rest ih =>
    simp only [List.cons_append, run]
    cases step w op with
    | none => rfl
    | some w1 => exact ih w1

/-- The lifecycle calls of a concatenation. -/
theorem lifecycle_append (l : LoggerRef) (i : ActivityId) (cs ds : Calls) :
    lifecycle l i (cs ++ ds) = lifecycle l i cs ++ lifecycle l i ds := by
  simp [lifecycle, received]

/-- A call that is no start or stop of `i` adds nothing to the lifecycle of `i`. -/
theorem lifecycle_single_other (l l2 : LoggerRef) (i : ActivityId) (c : Call)
    (h : c.lifeId ≠ some i) : lifecycle l i [(l2, c)] = [] := by
  by_cases hl : l2 = l
  · simp [lifecycle, received, List.filter, hl, h]
  · have hb : (l2 == l) = false := by simpa using hl
    simp [lifecycle, received, List.filter, hb]

/-- A start or stop of `i` made on `l` is added to the lifecycle of `i` at `l`. -/
theorem lifecycle_single_self (l : LoggerRef) (i : ActivityId) (c : Call)
    (h : c.lifeId = some i) : lifecycle l i [(l, c)] = [c] := by
  simp [lifecycle, received, List.filter, h]

/-- A live object is an entry of the object table. -/
theorem live_eq_some (w : World) (h : Nat) (a : Activity) :
    w.live h = some a ↔ w.objects[h]? = some (some a) := by
  unfold World.live
  split
  · rename_i b hb
    rw [hb]
    simp
  · rename_i hno
    constructor
    · intro hc
      cases hc
    · intro hc
      exact absurd hc (hno a)

/-- A live object is a member of the object table. -/
theorem live_mem (w : World) (h : Nat) (a : Activity) (hl : w.live h = some a) :
    some a ∈ w.objects :=
  List.getElem?_mem ((live_eq_some w h a).mp hl)

/-- One operation keeps `IssuedSoFar`; a construction adds one to the count. -/
theorem step_issuedSoFar (c k : Nat) (w w2 : World) (op : Op)
    (hinv : IssuedSoFar c k w) (hstep : step w op = some w2) :
    IssuedSoFar c (k + (if op.isConstruct then 1 else 0)) w2 := by
  obtain ⟨hnext, hobj, htr⟩ := hinv
  cases op with
  | construct l t s =>
    simp only [step, Activity.construct, Option.some.injEq] at hstep
    subst hstep
    simp only [Op.isConstruct, if_true]
    refine ⟨?_, ?_, ?_⟩
    · show u64 (w.nextId + 1) = (c + (k + 1)) % 2 ^ 64
      rw [hnext]
      unfold u64
      omega
    · intro a ha
      simp only [List.mem_append, List.mem_singleton, Option.some.injEq] at ha
      rcases ha with ha | ha
      · obtain ⟨j, hj, hid⟩ := hobj a ha
        exact ⟨j, by omega, hid⟩
      · subst ha
        exact ⟨k, by omega, hnext⟩
    · intro p hp x hx
      simp only [List.mem_append, List.mem_singleton] at hp
      rcases hp with hp | hp
      · obtain ⟨j, hj, hid⟩ := htr p hp x hx
        exact ⟨j, by omega, hid⟩
      · subst hp
        simp only [Call.lifeId, Option.some.injEq] at hx
        subst hx
        exact ⟨k, by omega, hnext⟩
  | copy h =>
    simp only [step] at hstep
    cases hl : w.live h with
    | none => simp [hl] at hstep
    | some a =>
      simp only [hl, Option.some.injEq] at hstep
      subst hstep
      simp only [Op.isConstruct, Bool.false_eq_true, if_false, Nat.add_zero]
      refine ⟨hnext, ?_, htr⟩
      intro b hb
      simp only [List.mem_append, List.mem_singleton, Option.some.injEq] at hb
      rcases hb with hb | hb
      · exact hobj b hb
      · subst hb
        exact hobj a (live_mem w h a hl)
  | progress h done expected running failed =>
    simp only [step] at hstep
    cases hl : w.live h with
    | none => simp [hl] at hstep
    | some a =>
      simp only [hl, Option.some.injEq] at hstep
      subst hstep
      simp only [Op.isConstruct, Bool.false_eq_true, if_false, Nat.add_zero]
      refine ⟨hnext, hobj, ?_⟩
      intro p hp x hx
      simp only [Activity.progress, List.mem_append, List.mem_singleton] at hp
      rcases hp with hp | hp
      · exact htr p hp x hx
      · subst hp
        simp [Call.lifeId] at hx
  | setExpected h type2 expected =>
    simp only [step] at hstep
    cases hl : w.live h with
    | none => simp [hl] at hstep
    | some a =>
      simp only [hl, Option.some.injEq] at hstep
      subst hstep
      simp only [Op.isConstruct, Bool.false_eq_true, if_false, Nat.add_zero]
      refine ⟨hnext, hobj, ?_⟩
      intro p hp x hx
      simp only [Activity.setExpected, List.mem_append, List.mem_singleton] at hp
      rcases hp with hp | hp
      · exact htr p hp x hx
      · subst hp
        simp [Call.lifeId] at hx
  | result h type args =>
    simp only [step] at hstep
    cases hl : w.live h with
    | none => simp [hl] at hstep
    | some a =>
      simp only [hl, Option.some.injEq] at hstep
      subst hstep
      simp only [Op.isConstruct, Bool.false_eq_true, if_false, Nat.add_zero]
      refine ⟨hnext, hobj, ?_⟩
      intro p hp x hx
      simp only [Activity.result, List.mem_append, List.mem_singleton] at hp
      rcases hp with hp | hp
      · exact htr p hp x hx
      · subst hp
        simp [Call.lifeId] at hx
  | scopeExit h =>
    simp only [step] at hstep
    cases hl : w.live h with
    | none => simp [hl] at hstep
    | some a =>
      simp only [hl, Option.some.injEq] at hstep
      subst hstep
      simp only [Op.isConstruct, Bool.false_eq_true, if_false, Nat.add_zero]
      refine ⟨hnext, ?_, ?_⟩
      · intro b hb
        rcases List.mem_or_eq_of_mem_set hb with hb | hb
        · exact hobj b hb
        · cases hb
      · intro p hp x hx
        simp only [Activity.destroy, List.mem_append, List.mem_singleton] at hp
        rcases hp with hp | hp
        · exact htr p hp x hx
        · subst hp
          simp only [Call.lifeId, Option.some.injEq] at hx
          subst hx
          exact hobj a (live_mem w h a hl)

/-- The number of constructions of a sequence, one operation at a time. -/
theorem constructions_cons (op : Op) (rest : List Op) :
    constructions (op :: rest) = (if op.isConstruct then 1 else 0) + constructions rest := by
  unfold constructions
  cases hc : op.isConstruct
  · simp [List.filter_cons, hc]
  · simp [List.filter_cons, hc]
    omega

/-- A run keeps `IssuedSoFar` and adds its constructions to the count. -/
theorem run_issuedSoFar (c k : Nat) (w w2 : World) (ops : List Op)
    (hinv : IssuedSoFar c k w) (hrun : run w ops = some w2) :
    IssuedSoFar c (k + constructions ops) w2 := by
  induction ops generalizing w k with
  | nil =>
    simp only [run, Option.some.injEq] at hrun
    subst hrun
    simpa [constructions] using hinv
  | cons op rest ih =>
    simp only [run] at hrun
    cases hs : step w op with
    | none => simp [hs] at hrun
    | some w1 =>
      simp only [hs] at hrun
      have h1 := ih _ w1 (step_issuedSoFar c k w w1 op hinv hs) hrun
      rw [constructions_cons, ← Nat.add_assoc]
      exact h1

/-- Adding an object with another id keeps the object part of `OwnsId`. -/
theorem objects_push (objs : List (Option Activity)) (h : Nat) (i : ActivityId)
    (b : Activity) (hlen : h < objs.length)
    (hothers : ∀ (j : Nat) (a : Activity), j ≠ h → objs[j]? = some (some a) → a.id ≠ i)
    (hb : b.id ≠ i) :
    h < (objs ++ [some b]).length ∧
    (∀ (j : Nat) (a : Activity), j ≠ h → (objs ++ [some b])[j]? = some (some a) → a.id ≠ i) ∧
    (objs ++ [some b])[h]? = objs[h]? := by
  refine ⟨by simp; omega, ?_, List.getElem?_append_left hlen⟩
  intro j a hj hja
  by_cases hjl : j < objs.length
  · rw [List.getElem?_append_left hjl] at hja
    exact hothers j a hj hja
  · rw [List.getElem?_append_right (by omega)] at hja
    have hmem : some a ∈ [some b] := List.getElem?_mem hja
    simp only [List.mem_singleton, Option.some.injEq] at hmem
    rw [hmem]
    exact hb

/-- Destroying another object keeps the object part of `OwnsId`. -/
theorem objects_kill_other (objs : List (Option Activity)) (h h2 : Nat) (i : ActivityId)
    (hne : h2 ≠ h) (hlen : h < objs.length)
    (hothers : ∀ (j : Nat) (a : Activity), j ≠ h → objs[j]? = some (some a) → a.id ≠ i) :
    h < (objs.set h2 none).length ∧
    (∀ (j : Nat) (a : Activity), j ≠ h → (objs.set h2 none)[j]? = some (some a) → a.id ≠ i) ∧
    (objs.set h2 none)[h]? = objs[h]? := by
  refine ⟨by simpa using hlen, ?_, List.getElem?_set_ne hne⟩
  intro j a hj hja
  rw [List.getElem?_set] at hja
  by_cases hjh : h2 = j
  · rw [if_pos hjh] at hja
    split at hja <;> simp at hja
  · rw [if_neg hjh] at hja
    exact hothers j a hj hja

/-- Destroying the object `h` keeps the other objects and empties its entry. -/
theorem objects_kill_self (objs : List (Option Activity)) (h : Nat) (i : ActivityId)
    (hlen : h < objs.length)
    (hothers : ∀ (j : Nat) (a : Activity), j ≠ h → objs[j]? = some (some a) → a.id ≠ i) :
    h < (objs.set h none).length ∧
    (∀ (j : Nat) (a : Activity), j ≠ h → (objs.set h none)[j]? = some (some a) → a.id ≠ i) ∧
    (objs.set h none)[h]? = some none := by
  refine ⟨by simpa using hlen, ?_, List.getElem?_set_self hlen⟩
  intro j a hj hja
  rw [List.getElem?_set_ne (Ne.symm hj)] at hja
  exact hothers j a hj hja

/-- One operation keeps `OwnsId`, as long as it is not a copy of the object `h`
and the counter has not gone all the way round. -/
theorem step_ownsId (h : Nat) (l : LoggerRef) (i : ActivityId) (t : ActivityType)
    (s : String) (r : Nat) (w w2 : World) (op : Op)
    (hinv : OwnsId h l i t s r w) (hstep : step w op = some w2)
    (hcopy : op ≠ Op.copy h) (hr : r + (if op.isConstruct then 1 else 0) < 2 ^ 64) :
    OwnsId h l i t s (r + (if op.isConstruct then 1 else 0)) w2 := by
  obtain ⟨hlen, hnext, hothers, hlife⟩ := hinv
  cases op with
  | construct l2 t2 s2 =>
    simp only [step, Activity.construct, Option.some.injEq] at hstep
    subst hstep
    simp only [Op.isConstruct, if_true] at hr ⊢
    have hfresh : w.nextId ≠ i := by
      rw [hnext]
      omega
    obtain ⟨k1, k2, k3⟩ := objects_push w.objects h i { logger := l2, id := w.nextId }
      hlen hothers hfresh
    refine ⟨k1, ?_, k2, ?_⟩
    · show u64 (w.nextId + 1) = (i + 1 + (r + 1)) % 2 ^ 64
      rw [hnext]
      unfold u64
      omega
    · show ((w.objects ++ [some { logger := l2, id := w.nextId }])[h]? = _ ∧
          lifecycle l i (w.trace ++ [(l2, Call.startActivity w.nextId t2 s2)]) = _) ∨
        ((w.objects ++ [some { logger := l2, id := w.nextId }])[h]? = _ ∧
          lifecycle l i (w.trace ++ [(l2, Call.startActivity w.nextId t2 s2)]) = _)
      rw [k3, lifecycle_append, lifecycle_single_other l l2 i _
        (by simpa [Call.lifeId] using hfresh), List.append_nil]
      exact hlife
  | copy h2 =>
    simp only [step] at hstep
    cases hl : w.live h2 with
    | none => simp [hl] at hstep
    | some a =>
      simp only [hl, Option.some.injEq] at hstep
      subst hstep
      simp only [Op.isConstruct, Bool.false_eq_true, if_false, Nat.add_zero]
      have hne : h2 ≠ h := fun he => hcopy (by rw [he])
      have ha : a.copy.id ≠ i := hothers h2 a hne ((live_eq_some w h2 a).mp hl)
      obtain ⟨k1, k2, k3⟩ := objects_push w.objects h i a.copy hlen hothers ha
      refine ⟨k1, hnext, k2, ?_⟩
      show ((w.objects ++ [some a.copy])[h]? = _ ∧ lifecycle l i w.trace = _) ∨
        ((w.objects ++ [some a.copy])[h]? = _ ∧ lifecycle l i w.trace = _)
      rw [k3]
      exact hlife
  | progress h2 done expected running failed =>
    simp only [step] at hstep
    cases hl : w.live h2 with
    | none => simp [hl] at hstep
    | some a =>
      simp only [hl, Option.some.injEq] at hstep
      subst hstep
      simp only [Op.isConstruct, Bool.false_eq_true, if_false, Nat.add_zero]
      refine ⟨hlen, hnext, hothers, ?_⟩
      show (w.objects[h]? = _ ∧ lifecycle l i (w.trace ++ _) = _) ∨
        (w.objects[h]? = _ ∧ lifecycle l i (w.trace ++ _) = _)
      rw [lifecycle_append, Activity.progress, lifecycle_single_other l _ i _
        (by simp [Call.lifeId]), List.append_nil]
      exact hlife
  | setExpected h2 type2 expected =>
    simp only [step] at hstep
    cases hl : w.live h2 with
    | none => simp [hl] at hstep
    | some a =>
      simp only [hl, Option.some.injEq] at hstep
      subst hstep
      simp only [Op.isConstruct, Bool.false_eq_true, if_false, Nat.add_zero]
      refine ⟨hlen, hnext, hothers, ?_⟩
      show (w.objects[h]? = _ ∧ lifecycle l i (w.trace ++ _) = _) ∨
        (w.objects[h]? = _ ∧ lifecycle l i (w.trace ++ _) = _)
      rw [lifecycle_append, Activity.setExpected, lifecycle_single_other l _ i _
        (by simp [Call.lifeId]), List.append_nil]
      exact hlife
  | result h2 type args =>
    simp only [step] at hstep
    cases hl : w.live h2 with
    | none => simp [hl] at hstep
    | some a =>
      simp only [hl, Option.some.injEq] at hstep
      subst hstep
      simp only [Op.isConstruct, Bool.false_eq_true, if_false, Nat.add_zero]
      refine ⟨hlen, hnext, hothers, ?_⟩
      show (w.objects[h]? = _ ∧ lifecycle l i (w.trace ++ _) = _) ∨
        (w.objects[h]? = _ ∧ lifecycle l i (w.trace ++ _) = _)
      rw [lifecycle_append, Activity.result, lifecycle_single_other l _ i _
        (by simp [Call.lifeId]), List.append_nil]
      exact hlife
  | scopeExit h2 =>
    simp only [step] at hstep
    cases hl : w.live h2 with
    | none => simp [hl] at hstep
    | some a =>
      simp only [hl, Option.some.injEq] at hstep
      subst hstep
      simp only [Op.isConstruct, Bool.false_eq_true, if_false, Nat.add_zero]
      have hentry := (live_eq_some w h2 a).mp hl
      by_cases hne : h2 = h
      · subst hne
        obtain ⟨k1, k2, k3⟩ := objects_kill_self w.objects h2 i hlen hothers
        refine ⟨k1, hnext, k2, Or.inr ?_⟩
        show (w.objects.set h2 none)[h2]? = _ ∧ lifecycle l i (w.trace ++ a.destroy) = _
        rcases hlife with ⟨hobj, htr⟩ | ⟨hobj, -⟩
        · rw [hobj] at hentry
          simp only [Option.some.injEq] at hentry
          subst hentry
          refine ⟨k3, ?_⟩
          rw [lifecycle_append, htr, Activity.destroy,
            lifecycle_single_self l i _ (by simp [Call.lifeId])]
          rfl
        · rw [hobj] at hentry
          simp at hentry
      · obtain ⟨k1, k2, k3⟩ := objects_kill_other w.objects h h2 i hne hlen hothers
        have ha : a.id ≠ i := hothers h2 a hne hentry
        refine ⟨k1, hnext, k2, ?_⟩
        show ((w.objects.set h2 none)[h]? = _ ∧ lifecycle l i (w.trace ++ a.destroy) = _) ∨
          ((w.objects.set h2 none)[h]? = _ ∧ lifecycle l i (w.trace ++ a.destroy) = _)
        rw [k3, lifecycle_append, Activity.destroy, lifecycle_single_other l _ i _
          (by simpa [Call.lifeId] using ha), List.append_nil]
        exact hlife

/-- A run keeps `OwnsId`, as long as it has no copy of the object `h` and the
counter does not go all the way round. -/
theorem run_ownsId (h : Nat) (l : LoggerRef) (i : ActivityId) (t : ActivityType)
    (s : String) (r : Nat) (w w2 : World) (ops : List Op)
    (hinv : OwnsId h l i t s r w) (hrun : run w ops = some w2)
    (hcopy : Op.copy h ∉ ops) (hr : r + constructions ops < 2 ^ 64) :
    OwnsId h l i t s (r + constructions ops) w2 := by
  induction ops generalizing w r with
  | nil =>
    simp only [run, Option.some.injEq] at hrun
    subst hrun
    simpa [constructions] using hinv
  | cons op rest ih =>
    simp only [run] at hrun
    rw [constructions_cons] at hr ⊢
    cases hs : step w op with
    | none => simp [hs] at hrun
    | some w1 =>
      simp only [hs] at hrun
      have hop : op ≠ Op.copy h := fun he => hcopy (by simp [he])
      have hrest : Op.copy h ∉ rest := fun hm => hcopy (List.mem_cons_of_mem _ hm)
      have h1 := step_ownsId h l i t s r w w1 op hinv hs hop (by omega)
      have h2 := ih _ w1 h1 hrun hrest (by omega)
      rw [← Nat.add_assoc]
      exact h2

/-- No start or stop of `i` among the calls: the lifecycle of `i` is empty. -/
theorem lifecycle_eq_nil (l : LoggerRef) (i : ActivityId) (cs : Calls)
    (h : ∀ p ∈ cs, p.2.lifeId ≠ some i) : lifecycle l i cs = [] := by
  unfold lifecycle received
  rw [List.filter_eq_nil_iff]
  intro c hc
  rw [List.mem_map] at hc
  obtain ⟨p, hp, rfl⟩ := hc
  simpa using h p (List.mem_of_mem_filter hp)

/-- A call made on another logger adds nothing to the lifecycle at `l`. -/
theorem lifecycle_single_other_logger (l l2 : LoggerRef) (i : ActivityId) (c : Call)
    (h : l2 ≠ l) : lifecycle l i [(l2, c)] = [] := by
  have hb : (l2 == l) = false := by simpa using h
  simp [lifecycle, received, List.filter, hb]

/-- One more copy of an element at the end of a list of copies. -/
theorem replicate_snoc {β : Type} (n : Nat) (x : β) :
    List.replicate n x ++ [x] = List.replicate (n + 1) x := by
  induction n with
  | zero => rfl
  | succ m ih => rw [List.replicate_succ, List.cons_append, ih, ← List.replicate_succ]

/-- Adding an object keeps the entry of the object `h`. -/
theorem getElem?_push (objs : List (Option Activity)) (h : Nat) (x : Option Activity)
    (hlen : h < objs.length) :
    h < (objs ++ [x]).length ∧ (objs ++ [x])[h]? = objs[h]? :=
  ⟨by simp; omega, List.getElem?_append_left hlen⟩

/-- One operation keeps `StartsFirst`, as long as the counter has not gone all
the way round; the object `h` may be copied. -/
theorem step_startsFirst (h : Nat) (l : LoggerRef) (i : ActivityId) (t : ActivityType)
    (s : String) (r : Nat) (w w2 : World) (op : Op)
    (hinv : StartsFirst h l i t s r w) (hstep : step w op = some w2)
    (hr : r + (if op.isConstruct then 1 else 0) < 2 ^ 64) :
    StartsFirst h l i t s (r + (if op.isConstruct then 1 else 0)) w2 := by
  obtain ⟨hlen, hnext, n, hlife, hobj⟩ := hinv
  cases op with
  | construct l2 t2 s2 =>
    simp only [step, Activity.construct, Option.some.injEq] at hstep
    subst hstep
    simp only [Op.isConstruct, if_true] at hr ⊢
    have hfresh : w.nextId ≠ i := by
      rw [hnext]
      omega
    obtain ⟨k1, k3⟩ := getElem?_push w.objects h (some { logger := l2, id := w.nextId }) hlen
    refine ⟨k1, ?_, n, ?_, ?_⟩
    · show u64 (w.nextId + 1) = (i + 1 + (r + 1)) % 2 ^ 64
      rw [hnext]
      unfold u64
      omega
    · show lifecycle l i (w.trace ++ [(l2, Call.startActivity w.nextId t2 s2)]) = _
      rw [lifecycle_append, lifecycle_single_other l l2 i _
        (by simpa [Call.lifeId] using hfresh), List.append_nil]
      exact hlife
    · show (w.objects ++ [some { logger := l2, id := w.nextId }])[h]? = _ ∨
        ((w.objects ++ [some { logger := l2, id := w.nextId }])[h]? = _ ∧ 1 ≤ n)
      rw [k3]
      exact hobj
  | copy h2 =>
    simp only [step] at hstep
    cases hl : w.live h2 with
    | none => simp [hl] at hstep
    | some a =>
      simp only [hl, Option.some.injEq] at hstep
      subst hstep
      simp only [Op.isConstruct, Bool.false_eq_true, if_false, Nat.add_zero]
      obtain ⟨k1, k3⟩ := getElem?_push w.objects h (some a.copy) hlen
      refine ⟨k1, hnext, n, hlife, ?_⟩
      show (w.objects ++ [some a.copy])[h]? = _ ∨
        ((w.objects ++ [some a.copy])[h]? = _ ∧ 1 ≤ n)
      rw [k3]
      exact hobj
  | progress h2 done expected running failed =>
    simp only [step] at hstep
    cases hl : w.live h2 with
    | none => simp [hl] at hstep
    | some a =>
      simp only [hl, Option.some.injEq] at hstep
      subst hstep
      simp only [Op.isConstruct, Bool.false_eq_true, if_false, Nat.add_zero]
      refine ⟨hlen, hnext, n, ?_, hobj⟩
      show lifecycle l i (w.trace ++ _) = _
      rw [lifecycle_append, Activity.progress, lifecycle_single_other l _ i _
        (by simp [Call.lifeId]), List.append_nil]
      exact hlife
  | setExpected h2 type2 expected =>
    simp only [step] at hstep
    cases hl : w.live h2 with
    | none => simp [hl] at hstep
    | some a =>
      simp only [hl, Option.some.injEq] at hstep
      subst hstep
      simp only [Op.isConstruct, Bool.false_eq_true, if_false, Nat.add_zero]
      refine ⟨hlen, hnext, n, ?_, hobj⟩
      show lifecycle l i (w.trace ++ _) = _
      rw [lifecycle_append, Activity.setExpected, lifecycle_single_other l _ i _
        (by simp [Call.lifeId]), List.append_nil]
      exact hlife
  | result h2 type args =>
    simp only [step] at hstep
    cases hl : w.live h2 with
    | none => simp [hl] at hstep
    | some a =>
      simp only [hl, Option.some.injEq] at hstep
      subst hstep
      simp only [Op.isConstruct, Bool.false_eq_true, if_false, Nat.add_zero]
      refine ⟨hlen, hnext, n, ?_, hobj⟩
      show lifecycle l i (w.trace ++ _) = _
      rw [lifecycle_append, Activity.result, lifecycle_single_other l _ i _
        (by simp [Call.lifeId]), List.append_nil]
      exact hlife
  | scopeExit h2 =>
    simp only [step] at hstep
    cases hl : w.live h2 with
    | none => simp [hl] at hstep
    | some a =>
      simp only [hl, Option.some.injEq] at hstep
      subst hstep
      simp only [Op.isConstruct, Bool.false_eq_true, if_false, Nat.add_zero]
      have hentry := (live_eq_some w h2 a).mp hl
      have hlen2 : h < (w.objects.set h2 none).length := by simpa using hlen
      by_cases hmine : a.logger = l ∧ a.id = i
      · obtain ⟨hal, hai⟩ := hmine
        refine ⟨hlen2, hnext, n + 1, ?_, ?_⟩
        · show lifecycle l i (w.trace ++ a.destroy) = _
          rw [lifecycle_append, hlife, Activity.destroy, hal, hai,
            lifecycle_single_self l i _ (by simp [Call.lifeId]), List.cons_append,
            replicate_snoc]
        · show (w.objects.set h2 none)[h]? = _ ∨ ((w.objects.set h2 none)[h]? = _ ∧ 1 ≤ n + 1)
          by_cases hne : h2 = h
          · subst hne
            exact Or.inr ⟨List.getElem?_set_self hlen, by omega⟩
          · rw [List.getElem?_set_ne hne]
            rcases hobj with hobj | ⟨hobj, -⟩
            · exact Or.inl hobj
            · exact Or.inr ⟨hobj, by omega⟩
      · have hne : h2 ≠ h := by
          intro he
          subst he
          rcases hobj with hobj | ⟨hobj, -⟩
          · rw [hobj] at hentry
            simp only [Option.some.injEq] at hentry
            subst hentry
            exact hmine ⟨rfl, rfl⟩
          · rw [hobj] at hentry
            simp at hentry
        refine ⟨hlen2, hnext, n, ?_, ?_⟩
        · show lifecycle l i (w.trace ++ a.destroy) = _
          have hnil : lifecycle l i a.destroy = [] := by
            unfold Activity.destroy
            by_cases hal : a.logger = l
            · exact lifecycle_single_other l _ i _
                (by simpa [Call.lifeId] using fun hai => hmine ⟨hal, hai⟩)
            · exact lifecycle_single_other_logger l _ i _ hal
          rw [lifecycle_append, hnil, List.append_nil]
          exact hlife
        · show (w.objects.set h2 none)[h]? = _ ∨ ((w.objects.set h2 none)[h]? = _ ∧ 1 ≤ n)
          rw [List.getElem?_set_ne hne]
          exact hobj

/-- A run keeps `StartsFirst`, as long as the counter does not go all the way
round. -/
theorem run_startsFirst (h : Nat) (l : LoggerRef) (i : ActivityId) (t : ActivityType)
    (s : String) (r : Nat) (w w2 : World) (ops : List Op)
    (hinv : StartsFirst h l i t s r w) (hrun : run w ops = some w2)
    (hr : r + constructions ops < 2 ^ 64) :
    StartsFirst h l i t s (r + constructions ops) w2 := by
  induction ops generalizing w r with
  | nil =>
    simp only [run, Option.some.injEq] at hrun
    subst hrun
    simpa [constructions] using hinv
  | cons op rest ih =>
    simp only [run] at hrun
    rw [constructions_cons] at hr ⊢
    cases hs : step w op with
    | none => simp [hs] at hrun
    | some w1 =>
      simp only [hs] at hrun
      have h1 := step_startsFirst h l i t s r w w1 op hinv hs (by omega)
      have h2 := ih _ w1 h1 hrun (by omega)
      rw [← Nat.add_assoc]
      exact h2

/-- Right after its construction, within `2 ^ 64` constructions from the start
of the process, the new object is the only one that carries its id, and its
logger has received the `startActivity` of the id and nothing else for it. -/
theorem construct_ownsId (c : Nat) (before : List Op)
    (l : LoggerRef) (t : ActivityType) (s : String) (w1 : World)
    (hbefore : run (World.initial c) before = some w1)
    (hn : constructions before < 2 ^ 64) :
    OwnsId w1.objects.length l w1.nextId t s 0
      { nextId := u64 (w1.nextId + 1),
        trace := w1.trace ++ [(l, Call.startActivity w1.nextId t s)],
        objects := w1.objects ++ [some { logger := l, id := w1.nextId }] } := by
  have hinit : IssuedSoFar c 0 (World.initial c) :=
    ⟨rfl, by simp [World.initial], by simp [World.initial]⟩
  obtain ⟨hnext, hobj, htr⟩ := run_issuedSoFar c 0 _ w1 before hinit hbefore
  rw [Nat.zero_add] at hnext hobj htr
  have hfresh : ∀ j, j < constructions before → (c + j) % 2 ^ 64 ≠ w1.nextId := by
    intro j hj
    rw [hnext]
    omega
  refine ⟨by simp, rfl, ?_, Or.inl ⟨List.getElem?_concat_length _ _, ?_⟩⟩
  · intro j a hj hja
    have hjl : j < w1.objects.length := by
      by_contra hge
      rw [List.getElem?_append_right (by omega)] at hja
      have hpos : j - w1.objects.length ≠ 0 := by omega
      obtain ⟨m, hm⟩ := Nat.exists_eq_succ_of_ne_zero hpos
      rw [hm] at hja
      simp at hja
    rw [List.getElem?_append_left hjl] at hja
    obtain ⟨j2, hj2, hid⟩ := hobj a (List.getElem?_mem hja)
    rw [hid]
    exact hfresh j2 hj2
  · show lifecycle l w1.nextId (w1.trace ++ [(l, Call.startActivity w1.nextId t s)]) = _
    rw [lifecycle_append, lifecycle_single_self l _ _ (by simp [Call.lifeId]),
      lifecycle_eq_nil l w1.nextId w1.trace]
    · rfl
    · intro p hp hx
      obtain ⟨j2, hj2, hid⟩ := htr p hp _ hx
      exact hfresh j2 hj2 hid.symm

/-- C3 (amended): take any run from the start of a process that makes at most
`2 ^ 64` constructions, any Activity constructed in it, and any point of the run
after that construction, other objects being alive or not.  Copied or not: the
`startActivity` and `stopActivity` calls with this Activity's id that its logger
has received are its `startActivity(id, type, s)` first and then some number `n`
of `stopActivity(id)`, so no stop comes before the start; and `n` is at least 1
once the Activity is destroyed.  If the Activity is never copied, then `n` is 0
while it is alive and exactly 1 once it is destroyed. -/
theorem Activity_one_stop_after_start (c : Nat) (before after : List Op)
    (l : LoggerRef) (t : ActivityType) (s : String) (w1 w : World)
    (hbefore : run (World.initial c) before = some w1)
    (hafter : run w1 (Op.construct l t s :: after) = some w)
    (hn : constructions before + 1 + constructions after ≤ 2 ^ 64) :
    ∃ n : Nat,
      lifecycle l w1.nextId w.trace
        = Call.startActivity w1.nextId t s :: List.replicate n (Call.stopActivity w1.nextId) ∧
      (w.objects[w1.objects.length]? = some (some { logger := l, id := w1.nextId }) ∨
        (w.objects[w1.objects.length]? = some none ∧ 1 ≤ n)) ∧
      (Op.copy w1.objects.length ∉ after →
        (w.objects[w1.objects.length]? = some (some { logger := l, id := w1.nextId }) ∧
          n = 0) ∨
        (w.objects[w1.objects.length]? = some none ∧ n = 1)) := by
  have hown := construct_ownsId c before l t s w1 hbefore (by omega)
  simp only [run, step, Activity.construct] at hafter
  have hstart : StartsFirst w1.objects.length l w1.nextId t s 0
      { nextId := u64 (w1.nextId + 1),
        trace := w1.trace ++ [(l, Call.startActivity w1.nextId t s)],
        objects := w1.objects ++ [some { logger := l, id := w1.nextId }] } := by
    obtain ⟨k1, k2, -, k4⟩ := hown
    refine ⟨k1, k2, 0, ?_, ?_⟩
    · rcases k4 with ⟨-, k5⟩ | ⟨k6, -⟩
      · exact k5
      · rw [List.getElem?_concat_length] at k6
        simp at k6
    · exact Or.inl (List.getElem?_concat_length _ _)
  obtain ⟨-, -, n, hlife, hobj⟩ :=
    run_startsFirst _ l _ t s 0 _ w after hstart hafter (by omega)
  refine ⟨n, hlife, hobj, ?_⟩
  intro hcopy
  obtain ⟨-, -, -, hcase⟩ := run_ownsId _ l _ t s 0 _ w after hown hafter hcopy (by omega)
  rcases hcase with ⟨halive, hone⟩ | ⟨hdead, htwo⟩
  · refine Or.inl ⟨halive, ?_⟩
    rw [hlife] at hone
    have hlen := congrArg List.length hone
    simp only [List.length_cons, List.length_replicate, List.length_nil] at hlen
    omega
  · refine Or.inr ⟨hdead, ?_⟩
    rw [hlife] at htwo
    have hlen := congrArg List.length htwo
    simp only [List.length_cons, List.length_replicate, List.length_nil] at hlen
    omega

/-- Destroying the last object of a table whose other objects are destroyed. -/
theorem set_last_none (n : Nat) (x : Option Activity) :
    (List.replicate n (none : Option Activity) ++ [x]).set n none
      = List.replicate (n + 1) none := by
  induction n with
  | zero => rfl
  | succ m ih =>
    rw [List.replicate_succ, List.cons_append, List.set_cons_succ, ih]
    rfl

/-- One round of `shortLived` from a world in which the `n` objects made so far
are destroyed. -/
theorem run_round (c n : Nat) (tr : Calls) :
    run { nextId := c, trace := tr, objects := List.replicate n none }
        [Op.construct 0 .actUnknown "", Op.scopeExit n]
      = some { nextId := u64 (c + 1),
               trace := tr ++ [(0, Call.startActivity c .actUnknown ""),
                               (0, Call.stopActivity c)],
               objects := List.replicate (n + 1) none } := by
  have hlive : World.live
      { nextId := u64 (c + 1),
        trace := tr ++ [(0, Call.startActivity c .actUnknown "")],
        objects := List.replicate n none ++ [some { logger := 0, id := c }] } n
      = some { logger := 0, id := c } := by
    rw [live_eq_some]
    have h := List.getElem?_concat_length (List.replicate n (none : Option Activity))
      (some { logger := 0, id := c })
    rw [List.length_replicate] at h
    exact h
  simp only [run, step, Activity.construct, hlive, Activity.destroy, set_last_none,
    List.append_assoc, List.singleton_append]

/-- The outcome of `shortLived n`: the counter has advanced by `n`, every object
is destroyed, and after the first round the trace begins with the start and the
stop of the first id. -/
theorem run_shortLived (c n : Nat) (hc : c < 2 ^ 64) :
    ∃ tr : Calls,
      run (World.initial c) (shortLived n)
        = some { nextId := (c + n) % 2 ^ 64, trace := tr,
                 objects := List.replicate n none } ∧
      (0 < n → ∃ tail : Calls,
        tr = [(0, Call.startActivity c .actUnknown ""), (0, Call.stopActivity c)] ++ tail) := by
  induction n with
  | zero =>
    refine ⟨[], ?_, fun h => absurd h (Nat.lt_irrefl 0)⟩
    simp only [shortLived, run, World.initial, u64, List.replicate_zero, Nat.add_zero,
      Nat.mod_eq_of_lt hc]
  | succ m ih =>
    obtain ⟨tr, hrun, hshape⟩ := ih
    refine ⟨tr ++ [(0, Call.startActivity ((c + m) % 2 ^ 64) .actUnknown ""),
      (0, Call.stopActivity ((c + m) % 2 ^ 64))], ?_, ?_⟩
    · rw [shortLived, run_append, hrun, Option.some_bind, run_round]
      have hnext : u64 ((c + m) % 2 ^ 64 + 1) = (c + (m + 1)) % 2 ^ 64 := by
        unfold u64
        omega
      rw [hnext]
    · intro _
      rcases Nat.eq_zero_or_pos m with hm | hm
      · subst hm
        have htr : tr = [] := by
          simp only [shortLived, run, World.initial, Option.some.injEq, World.mk.injEq] at hrun
          exact hrun.2.1.symm
        subst htr
        refine ⟨[], ?_⟩
        simp only [Nat.add_zero, Nat.mod_eq_of_lt hc, List.nil_append, List.append_nil]
      · obtain ⟨tail, htail⟩ := hshape hm
        refine ⟨tail ++ [(0, Call.startActivity ((c + m) % 2 ^ 64) .actUnknown ""),
          (0, Call.stopActivity ((c + m) % 2 ^ 64))], ?_⟩
        rw [htail, List.append_assoc]

/-- C3 (counterexample): two runs that end with every object destroyed.  In the
first an Activity is constructed and copied once: its logger receives the
`stopActivity` of its id twice.  In the second `2 ^ 64 + 1` Activities are
constructed and destroyed one after the other: the logger receives the
`stopActivity` of the id 0 at least twice. -/
theorem Activity_stop_more_than_once :
    (∃ w : World,
      run (World.initial 0)
        [.construct 0 .actDownload "fetch foo", .copy 0, .scopeExit 1, .scopeExit 0]
        = some w ∧
      w.allDestroyed ∧
      lifecycle 0 0 w.trace
        = [Call.startActivity 0 .actDownload "fetch foo", Call.stopActivity 0,
           Call.stopActivity 0]) ∧
    (∃ w : World,
      run (World.initial 0) (shortLived (2 ^ 64 + 1)) = some w ∧
      w.allDestroyed ∧
      2 ≤ (lifecycle 0 0 w.trace).count (Call.stopActivity 0)) := by
  constructor
  · exact ⟨_, rfl, by decide, by decide⟩
  · obtain ⟨tr, hrun, hshape⟩ := run_shortLived 0 (2 ^ 64) (by norm_num)
    obtain ⟨tail, htail⟩ := hshape (by norm_num)
    have hzero : (0 + 2 ^ 64) % 2 ^ 64 = 0 := by norm_num
    rw [hzero] at hrun
    refine ⟨{ nextId := u64 (0 + 1),
              trace := tr ++ [(0, Call.startActivity 0 .actUnknown ""),
                              (0, Call.stopActivity 0)],
              objects := List.replicate (2 ^ 64 + 1) none }, ?_, ?_, ?_⟩
    · rw [shortLived, run_append, hrun, Option.some_bind, run_round]
    · intro o ho
      exact List.eq_of_mem_replicate ho
    · show 2 ≤ (lifecycle 0 0 (tr ++ [(0, Call.startActivity 0 .actUnknown ""),
        (0, Call.stopActivity 0)])).count (Call.stopActivity 0)
      rw [htail, lifecycle_append, lifecycle_append, List.count_append, List.count_append]
      have hblock : (lifecycle 0 0 [(0, Call.startActivity 0 .actUnknown ""),
          (0, Call.stopActivity 0)]).count (Call.stopActivity 0) = 1 := by decide
      rw [hblock]
      omega

/-- Witness for C3 (amended): after an outer Activity (object 0, id 0), an
Activity is constructed (object 1, id 1), reports progress and a result, the
outer one is copied (object 2), and the objects 1 and 2 are destroyed while the
outer Activity is still open.  The logger has received the start and then
exactly one stop of the id 1. -/
theorem Activity_one_stop_after_start_witness :
    run (World.initial 0) [.construct 0 .actBuild "outer"]
      = some { nextId := 1, trace := [(0, Call.startActivity 0 .actBuild "outer")],
               objects := [some { logger := 0, id := 0 }] } ∧
    run { nextId := 1, trace := [(0, Call.startActivity 0 .actBuild "outer")],
          objects := [some { logger := 0, id := 0 }] }
        [.construct 0 .actDownload "fetch foo", .progress 1 3 10 1 0, .copy 0,
         .result 1 .resFileLinked [Arg.int 42, Arg.text "path/to/file"],
         .scopeExit 1, .scopeExit 2]
      = some { nextId := 2,
               trace := [(0, Call.startActivity 0 .actBuild "outer"),
                 (0, Call.startActivity 1 .actDownload "fetch foo"),
                 (0, Call.progress 1 3 10 1 0),
                 (0, Call.result 1 .resFileLinked
                    [{ type := .tInt, i := 42, s := "" },
                     { type := .tString, i := 0, s := "path/to/file" }]),
                 (0, Call.stopActivity 1),
                 (0, Call.stopActivity 0)],
               objects := [some { logger := 0, id := 0 }, none, none] } ∧
    lifecycle 0 1
        [(0, Call.startActivity 0 .actBuild "outer"),
         (0, Call.startActivity 1 .actDownload "fetch foo"),
         (0, Call.progress 1 3 10 1 0),
         (0, Call.result 1 .resFileLinked
            [{ type := .tInt, i := 42, s := "" },
             { type := .tString, i := 0, s := "path/to/file" }]),
         (0, Call.stopActivity 1),
         (0, Call.stopActivity 0)]
      = [Call.startActivity 1 .actDownload "fetch foo", Call.stopActivity 1] := by
  refine ⟨rfl, by decide, ?_⟩
  obtain ⟨n, hlife, -, hnocopy⟩ :=
    Activity_one_stop_after_start 0
      [.construct 0 .actBuild "outer"]
      [.progress 1 3 10 1 0, .copy 0,
       .result 1 .resFileLinked [Arg.int 42, Arg.text "path/to/file"],
       .scopeExit 1, .scopeExit 2]
      0 .actDownload "fetch foo"
      { nextId := 1, trace := [(0, Call.startActivity 0 .actBuild "outer")],
        objects := [some { logger := 0, id := 0 }] }
      { nextId := 2,
        trace := [(0, Call.startActivity 0 .actBuild "outer"),
           (0, Call.startActivity 1 .actDownload "fetch foo"),
           (0, Call.progress 1 3 10 1 0),
           (0, Call.result 1 .resFileLinked
              [{ type := .tInt, i := 42, s := "" },
               { type := .tString, i := 0, s := "path/to/file" }]),
           (0, Call.stopActivity 1),
           (0, Call.stopActivity 0)],
        objects := [some { logger := 0, id := 0 }, none, none] }
      rfl (by decide) (by decide)
  rcases hnocopy (by decide) with ⟨halive, -⟩ | ⟨-, hone⟩
  · exact absurd halive (by decide)
  · rw [hone] at hlife
    exact hlife

end nix
